import Mathlib

/-!
Shallow embedding of the KSI-LS12 log signing core of rsyslog
(src/runtime/lib_ksils12.c) together with proofs about the TLV codec,
the Merkle accumulator carry loop, the block lifecycle and the signer
worker queue discipline.

Bytes are modelled as natural numbers (with explicit truncation where the
C code truncates), files as the list of bytes written so far, hashing as
an uninterpreted digest function passed as an explicit parameter, and the
external aggregation service as nondeterministic inputs to the worker
step function.
-/

/-- Digest function of the external hasher: maps the accumulated input
bytes to the digest bytes.  Uninterpreted parameter of the embedding. -/
def HashF : Type := List Nat → List Nat

/-- Modelled from the spec: the `RSGT_FLAG_TLV16` bit, defined in
lib_ksils12.h which is not under src/.  The spec fixes it as the high bit
of the first header byte. -/
def RSGT_FLAG_TLV16 : Nat := 0x80

/-- Modelled from the spec: the `RSGT_TYPE_MASK` constant, defined in
lib_ksils12.h which is not under src/.  The spec says a tag of the 2-byte
form fits in 5 bits, so the mask is 0x1f. -/
def RSGT_TYPE_MASK : Nat := 0x1f

/-- Modelled from the spec: the `RSGTE_IO` error code from the missing
header; only its non-zero-ness matters for the claims. -/
def RSGTE_IO : Nat := 1

/-- KSI library success code: `KSI_OK` is zero. -/
def KSI_OK : Nat := 0

/-- KSI library generic error code; any fixed non-zero value. -/
def KSI_UNKNOWN_ERROR : Nat := 1

/-- fwrite(data, size, 1, f) where `data` is exactly the `size` bytes to
write: appends the bytes and returns the number of complete elements
written.  Per C99 7.19.8.2, if `size` is zero fwrite returns zero and the
stream is unchanged. -/
def fwrite1 (f : List Nat) (data : List Nat) : Nat × List Nat :=
  if data.length = 0 then (0, f) else (1, f ++ data)

/-- tlvGetIntSize from lib_ksils12.c: number of octets of the minimal
big-endian representation of `val` (zero for zero). -/
def tlvGetIntSize (val : Nat) : Nat :=
  if val = 0 then 0 else tlvGetIntSize (val / 256) + 1
termination_by val
decreasing_by exact Nat.div_lt_self (by omega) (by omega)

/-- tlvWriteOctetString from lib_ksils12.c: one fwrite of the data,
RSGTE_IO when fwrite does not report one element written. -/
def tlvWriteOctetString (f : List Nat) (data : List Nat) : Nat × List Nat :=
  let w := fwrite1 f data
  if w.1 ≠ 1 then ( RSGTE_IO, w.2) else (0, w.2)

/-- tlvWriteHeader8 from lib_ksils12.c: the 2-byte header
`[(flags and not TLV16) or type, len and 0xff]`. -/
def tlvWriteHeader8 (f : List Nat) (flags tlvtype len : Nat) : Nat × List Nat :=
  tlvWriteOctetString f [((flags &&& 0xffffff7f) ||| tlvtype) % 256, len &&& 0xff]

/-- tlvWriteHeader16 from lib_ksils12.c: the 4-byte header with the TLV16
flag set in the 16-bit type word. -/
def tlvWriteHeader16 (f : List Nat) (flags tlvtype len : Nat) : Nat × List Nat :=
  let typ := (((flags ||| RSGT_FLAG_TLV16) <<< 8) ||| tlvtype) % 65536
  tlvWriteOctetString f [(typ >>> 8) % 256, typ % 256, (len >>> 8) &&& 0xff, len &&& 0xff]

/-- tlvGetHeaderSize from lib_ksils12.c: 2 for a 5-bit tag with size at
most 0xff, 4 for a 13-bit tag with size at most 0xffff, 0 otherwise. -/
def tlvGetHeaderSize (tag size : Nat) : Nat :=
  if tag ≤ RSGT_TYPE_MASK ∧ size ≤ 0xff then 2
  else if (tag >>> 8) ≤ RSGT_TYPE_MASK ∧ size ≤ 0xffff then 4
  else 0

/-- tlvWriteHeader from lib_ksils12.c.  Note that the source passes
`flags` (not `len`) as the size argument of tlvGetHeaderSize. -/
def tlvWriteHeader (f : List Nat) (flags tlvtype len : Nat) : Nat × List Nat :=
  let headersize := tlvGetHeaderSize tlvtype flags
  if headersize = 2 then tlvWriteHeader8 f flags tlvtype len
  else if headersize = 4 then tlvWriteHeader16 f flags tlvtype len
  else (0, f)

/-- tlvWriteOctetStringTLV from lib_ksils12.c: header then value bytes. -/
def tlvWriteOctetStringTLV (f : List Nat) (flags tlvtype : Nat) (data : List Nat) :
    Nat × List Nat :=
  let s1 := tlvWriteHeader f flags tlvtype data.length
  if s1.1 ≠ 0 then ( RSGTE_IO, s1.2)
  else
    let w := fwrite1 s1.2 data
    if w.1 ≠ 1 then ( RSGTE_IO, w.2) else (0, w.2)

/-- Big-endian octets of `val` written into a buffer of `count` bytes,
exactly as the descending fill loop of tlvWriteInt64TLV produces them. -/
def bigEndianBytes (val : Nat) : Nat → List Nat
  | 0 => []
  | n + 1 => bigEndianBytes (val / 256) n ++ [val % 256]

/-- tlvWriteInt64TLV from lib_ksils12.c: header with the minimal octet
count as length, then the big-endian value octets in one fwrite. -/
def tlvWriteInt64TLV (f : List Nat) (flags tlvtype val : Nat) : Nat × List Nat :=
  let count := tlvGetIntSize val
  let s1 := tlvWriteHeader f flags tlvtype count
  if s1.1 ≠ 0 then ( RSGTE_IO, s1.2)
  else
    let w := fwrite1 s1.2 (bigEndianBytes val count)
    if w.1 ≠ 1 then ( RSGTE_IO, w.2) else (0, w.2)

/-- KSI_DataHasher state: the bytes accumulated since the last reset. -/
structure KSIDataHasher where
  acc : List Nat
deriving DecidableEq

/-- KSI_DataHasher_reset: empty accumulator. -/
def KSI_DataHasher_reset : KSIDataHasher := ⟨[]⟩

/-- KSI_DataHasher_add: append the given bytes to the accumulator. -/
def KSI_DataHasher_add (h : KSIDataHasher) (bytes : List Nat) : KSIDataHasher :=
  ⟨h.acc ++ bytes⟩

/-- KSI_DataHasher_addImprint: append the full imprint bytes (algorithm
byte followed by digest). -/
def KSI_DataHasher_addImprint (h : KSIDataHasher) (imprint : List Nat) : KSIDataHasher :=
  ⟨h.acc ++ imprint⟩

/-- KSI_DataHasher_close: produce the imprint, the algorithm byte
followed by the digest of the accumulated bytes. -/
def KSI_DataHasher_close (hf : HashF) (alg : Nat) (h : KSIDataHasher) : List Nat :=
  alg :: hf h.acc

/-- The context fields of rsksictx_s that the claims touch (the struct
lives in lib_ksils12.h; the fields are those read and written by
lib_ksils12.c).  `asyncMode` is true when `syncMode` equals
`LOGSIG_ASYNCHRONOUS`. -/
structure RsksiCtx where
  disabled : Bool
  blockLevelLimit : Nat
  effectiveBlockLevelLimit : Nat
  max_requests : Nat
  asyncMode : Bool
deriving DecidableEq

/-- A pushed aggregator configuration: the two fields handle_ksi_config
consumes, each absent when the corresponding getter yields no integer. -/
structure KSIConfig where
  maxRequests : Option Nat
  maxLevel : Option Nat
deriving DecidableEq

/-- handle_ksi_config from lib_ksils12.c: adopt the pushed maxRequests;
for maxLevel, move the effective block level limit to
min(maxLevel, configured limit) whenever that differs from its current
value, and otherwise disable the context when maxLevel is below 2.
The KSI_AsyncService option updates are external effects and carry no
state modelled here. -/
def handle_ksi_config (ctx : RsksiCtx) (config : KSIConfig) : RsksiCtx :=
  let ctx1 :=
    match config.maxRequests with
    | some v => { ctx with max_requests := v }
    | none => ctx
  match config.maxLevel with
  | some tmpInt =>
    let newLevel := min tmpInt ctx1.blockLevelLimit
    if ctx1.effectiveBlockLevelLimit ≠ newLevel then
      { ctx1 with effectiveBlockLevelLimit := newLevel }
    else if tmpInt < 2 then
      { ctx1 with disabled := true }
    else ctx1
  | none => ctx1

/-- The per-file block state of ksifile_s used by lib_ksils12.c: the
current block's IV (none once freed), the chained last-leaf imprint, the
active prefix of the roots array (length `nRoots`), counters, limits,
flags and the bytes written to the block-data file. -/
structure KsiFile where
  disabled : Bool
  hashAlg : Nat
  iv : Option (List Nat)
  lastLeaf : List Nat
  roots : List (Option (List Nat))
  nRecords : Nat
  blockSizeLimit : Nat
  blockTimeLimit : Nat
  blockStarted : Nat
  bKeepRecordHashes : Bool
  bKeepTreeHashes : Bool
  bInBlk : Bool
  blockFile : List Nat
deriving DecidableEq

/-- tlvWriteHashKSI from lib_ksils12.c: write the imprint of a node as an
octet-string TLV into the block-data file. -/
def tlvWriteHashKSI (f : List Nat) (tlvtype : Nat) (imprint : List Nat) : Nat × List Nat :=
  tlvWriteOctetStringTLV f 0 tlvtype imprint

/-- tlvWriteBlockHdrKSI from lib_ksils12.c: the 0x0901 block header with
hash-algorithm, IV and last-hash sub-TLVs.  `hl` is KSI_getHashLength. -/
def tlvWriteBlockHdrKSI (hl : Nat → Nat) (ksi : KsiFile) : Nat × List Nat :=
  let tlvlen := 2 + 1 + (2 + hl ksi.hashAlg) + (2 + hl (ksi.lastLeaf.headD 0) + 1)
  let s1 := tlvWriteHeader ksi.blockFile 0 0x0901 tlvlen
  if s1.1 ≠ 0 then s1
  else
    let s2 := tlvWriteOctetStringTLV s1.2 0 0x01 [ksi.hashAlg % 256]
    if s2.1 ≠ 0 then s2
    else
      let s3 := tlvWriteOctetStringTLV s2.2 0 0x02 ((ksi.iv.getD []).take (hl ksi.hashAlg))
      if s3.1 ≠ 0 then s3
      else tlvWriteOctetStringTLV s3.2 0 0x03 (ksi.lastLeaf.take (hl (ksi.lastLeaf.headD 0) + 1))

/-- tlvWriteKSISigLS12 from lib_ksils12.c: the 0x0904 signature TLV with
the record count and the DER signature sub-TLVs. -/
def tlvWriteKSISigLS12 (f : List Nat) (record_count : Nat) (der : List Nat) : Nat × List Nat :=
  let totalSize := 2 + tlvGetIntSize record_count + 4 + der.length
  let s1 := tlvWriteHeader f 0 0x0904 totalSize
  if s1.1 ≠ 0 then s1
  else
    let s2 := tlvWriteInt64TLV s1.2 0 0x01 record_count
    if s2.1 ≠ 0 then s2
    else tlvWriteOctetStringTLV s2.2 0 0x0905 der

/-- tlvWriteNoSigLS12 from lib_ksils12.c: the 0x0904 no-signature TLV
carrying the record count and a nested 0x02 with the root imprint and the
optional error text (written with its trailing NUL). -/
def tlvWriteNoSigLS12 (f : List Nat) (record_count : Nat) (imprint : List Nat)
    (errorText : Option (List Nat)) : Nat × List Nat :=
  let noSigSize := 2 + imprint.length +
    (match errorText with | some e => 2 + e.length + 1 | none => 0)
  let totalSize := 2 + tlvGetIntSize record_count + 2 + noSigSize
  let s1 := tlvWriteHeader f 0 0x0904 totalSize
  if s1.1 ≠ 0 then s1
  else
    let s2 := tlvWriteInt64TLV s1.2 0 0x01 record_count
    if s2.1 ≠ 0 then s2
    else
      let s3 := tlvWriteHeader s2.2 0 0x02 noSigSize
      if s3.1 ≠ 0 then s3
      else
        let s4 := tlvWriteOctetStringTLV s3.2 0 0x01 imprint
        if s4.1 ≠ 0 then s4
        else
          match errorText with
          | some e => tlvWriteOctetStringTLV s4.2 0 0x02 (e ++ [0])
          | none => (0, s4.2)

/-- Worker queue item type identifier (QITEM_type in lib_ksils12.c). -/
inductive QItemType where
  | sigRequest
  | closeFile
  | newFile
  | quit
deriving DecidableEq

/-- Worker queue item status identifier (QITEM_status in lib_ksils12.c). -/
inductive QItemStatus where
  | waiting
  | sent
  | done
deriving DecidableEq

/-- Worker queue job item (QueueItem in lib_ksils12.c); `arg` is the root
imprint of a signature request, abstracted to any payload type. -/
structure QueueItem (α : Type) where
  type : QItemType
  status : QItemStatus
  arg : α
  intarg1 : Nat
  intarg2 : Nat
  ksi_status : Nat
deriving DecidableEq

/-- sigblkInitKSI from lib_ksils12.c: fresh IV, cleared roots, zero
counters, in-block flag set, block size limit recomputed from the
context's current effective block level limit. -/
def sigblkInitKSI (ctx : RsksiCtx) (newIV : List Nat) (now : Nat) (ksi : KsiFile) : KsiFile :=
  { ksi with
      iv := some newIV
      roots := []
      nRecords := 0
      bInBlk := true
      blockStarted := now
      blockSizeLimit := 2 ^ (ctx.effectiveBlockLevelLimit - 1) }

/-- sigblkCreateMask from lib_ksils12.c: reset the hasher, add the full
last-leaf imprint, add the IV, close. -/
def sigblkCreateMask (hf : HashF) (hl : Nat → Nat) (ksi : KsiFile) : List Nat :=
  KSI_DataHasher_close hf ksi.hashAlg
    (KSI_DataHasher_add
      (KSI_DataHasher_add KSI_DataHasher_reset
        (ksi.lastLeaf.take (hl (ksi.lastLeaf.headD 0) + 1)))
      ((ksi.iv.getD []).take (hl ksi.hashAlg)))

/-- sigblkCreateHash from lib_ksils12.c: hash of the record bytes. -/
def sigblkCreateHash (hf : HashF) (ksi : KsiFile) (rec : List Nat) : List Nat :=
  KSI_DataHasher_close hf ksi.hashAlg (KSI_DataHasher_add KSI_DataHasher_reset rec)

/-- sigblkHashTwoNodes from lib_ksils12.c: hash of the left imprint, the
right imprint and the single level byte. -/
def sigblkHashTwoNodes (hf : HashF) (alg : Nat) (left right : List Nat) (level : Nat) :
    List Nat :=
  KSI_DataHasher_close hf alg
    (KSI_DataHasher_add
      (KSI_DataHasher_addImprint (KSI_DataHasher_addImprint KSI_DataHasher_reset left) right)
      [level % 256])

/-- The carry loop of sigblkAddLeaf (lib_ksils12.c lines 1113-1136) over
the active prefix of the roots array: place the node in the first free
slot, folding occupied slots upward with level byte j+2 and emitting a
tree-hash TLV for each interim when tree hashes are kept; a node that
carries past the top is appended as a new slot. -/
def sigblkCarry (hf : HashF) (alg : Nat) (kt : Bool) :
    List (Option (List Nat)) → List Nat → Nat → List Nat →
    List (Option (List Nat)) × List Nat
  | [], t, _, f => ([some t], f)
  | none :: rest, t, _, f => (some t :: rest, f)
  | some r :: rest, t, j, f =>
    let t2 := sigblkHashTwoNodes hf alg r t (j + 2)
    let f2 := if kt then (tlvWriteHashKSI f 0x0903 t2).2 else f
    let res := sigblkCarry hf alg kt rest t2 (j + 1) f2
    (none :: res.1, res.2)

/-- sigblkAddLeaf from lib_ksils12.c: mask and leaf hash, block header on
the first leaf, verbatim metadata bytes, optional record-hash TLV, the
level-1 pair (mask left for normal records, right for metadata), optional
tree-hash TLV, last-leaf update before the carry, then the carry loop and
the record counter. -/
def sigblkAddLeaf (hf : HashF) (hl : Nat → Nat) (ksi : KsiFile)
    (leafData : List Nat) (metadata : Bool) : KsiFile :=
  if ksi.disabled then ksi
  else
    let mask := sigblkCreateMask hf hl ksi
    let leafHash := sigblkCreateHash hf ksi leafData
    let f1 := if ksi.nRecords = 0 then (tlvWriteBlockHdrKSI hl ksi).2 else ksi.blockFile
    let f2 := if metadata then (tlvWriteOctetString f1 leafData).2 else f1
    let f3 := if ksi.bKeepRecordHashes then (tlvWriteHashKSI f2 0x0902 leafHash).2 else f2
    let treeNode :=
      if metadata then sigblkHashTwoNodes hf ksi.hashAlg leafHash mask 1
      else sigblkHashTwoNodes hf ksi.hashAlg mask leafHash 1
    let f4 := if ksi.bKeepTreeHashes then (tlvWriteHashKSI f3 0x0903 treeNode).2 else f3
    let carry := sigblkCarry hf ksi.hashAlg ksi.bKeepTreeHashes ksi.roots treeNode 0 f4
    { ksi with
        blockFile := carry.2
        lastLeaf := treeNode
        roots := carry.1
        nRecords := ksi.nRecords + 1 }

/-- The halving loop of sigblkCalcLevel: while c is above one, increment
the level and shift c right. -/
def calcLevelLoop (c : Nat) : Nat :=
  if 1 < c then calcLevelLoop (c / 2) + 1 else 0
termination_by c
decreasing_by exact Nat.div_lt_self (by omega) (by omega)

/-- sigblkCalcLevel from lib_ksils12.c: the halving loop followed by the
round-up correction when 2^level is still below the leaf count. -/
def sigblkCalcLevel (leaves : Nat) : Nat :=
  let level := calcLevelLoop leaves
  if 2 ^ level < leaves then level + 1 else level

/-- The final fold of sigblkFinishKSI (lib_ksils12.c lines 1250-1264):
sweep the roots from low to high, taking the first occupied slot as the
root and folding every further occupied slot on top with level byte j+2,
emitting tree-hash TLVs when kept. -/
def sigblkFinishRoots (hf : HashF) (alg : Nat) (kt : Bool) :
    List (Option (List Nat)) → Option (List Nat) → Nat → List Nat →
    Option (List Nat) × List Nat
  | [], root, _, f => (root, f)
  | r :: rest, none, j, f => sigblkFinishRoots hf alg kt rest r (j + 1) f
  | none :: rest, some rt, j, f => sigblkFinishRoots hf alg kt rest (some rt) (j + 1) f
  | some rj :: rest, some rt, j, f =>
    let root2 := sigblkHashTwoNodes hf alg rj rt (j + 2)
    let f2 := if kt then (tlvWriteHashKSI f 0x0903 root2).2 else f
    sigblkFinishRoots hf alg kt rest (some root2) (j + 1) f2

/-- sigblkSign from lib_ksils12.c: write a real signature TLV when the
synchronous aggregator produced a DER blob, and a no-signature TLV
carrying the root imprint and the error string otherwise. -/
def sigblkSign (aggrDer : Option (List Nat)) (errText : List Nat) (nRecords : Nat)
    (root : List Nat) (f : List Nat) : List Nat :=
  match aggrDer with
  | some der => (tlvWriteKSISigLS12 f nRecords der).2
  | none => (tlvWriteNoSigLS12 f nRecords root (some errText)).2

/-- sigblkFinishKSI from lib_ksils12.c: nothing but freeing the IV and
clearing the in-block flag when the block is empty; otherwise fold the
roots into the block root, compute the level from twice the record
count, then either write the interim no-signature TLV and enqueue a
signature request (asynchronous mode) or sign synchronously.  `aggrDer`
and `errText` stand for the synchronous aggregator's reply. -/
def sigblkFinishKSI (hf : HashF) (ctx : RsksiCtx) (aggrDer : Option (List Nat))
    (errText : List Nat) (ksi : KsiFile) : KsiFile × Option (QueueItem (List Nat)) :=
  if ksi.nRecords = 0 then
    ({ ksi with iv := none, bInBlk := false }, none)
  else
    let fr := sigblkFinishRoots hf ksi.hashAlg ksi.bKeepTreeHashes ksi.roots none 0 ksi.blockFile
    let root := fr.1.getD []
    let level := sigblkCalcLevel (2 * ksi.nRecords)
    let cleared := ksi.roots.map (fun _ => (none : Option (List Nat)))
    if ctx.asyncMode then
      ({ ksi with
          roots := cleared
          blockFile := (tlvWriteNoSigLS12 fr.2 ksi.nRecords root none).2
          iv := none
          bInBlk := false },
        some ⟨QItemType.sigRequest, QItemStatus.waiting, root, ksi.nRecords, level,
          KSI_UNKNOWN_ERROR⟩)
    else
      ({ ksi with
          roots := cleared
          blockFile := sigblkSign aggrDer errText ksi.nRecords root fr.2
          iv := none
          bInBlk := false }, none)

/-- sigblkAddRecordKSI from lib_ksils12.c: success without any change on
a null or disabled handle; otherwise add the record as a normal leaf and,
when the record count has reached the block size limit, finish the block
and initialize the next one within the same call.  Returns the status,
the new handle state and the queue item enqueued by an automatic
finish. -/
def sigblkAddRecordKSI (hf : HashF) (hl : Nat → Nat) (ctx : RsksiCtx)
    (aggrDer : Option (List Nat)) (errText : List Nat) (newIV : List Nat) (now : Nat)
    (ksiOpt : Option KsiFile) (rec : List Nat) :
    Nat × Option KsiFile × Option (QueueItem (List Nat)) :=
  match ksiOpt with
  | none => (0, none, none)
  | some ksi =>
    if ksi.disabled then (0, some ksi, none)
    else
      let ksi1 := sigblkAddLeaf hf hl ksi rec false
      if ksi1.nRecords = ksi1.blockSizeLimit then
        let fin := sigblkFinishKSI hf ctx aggrDer errText ksi1
        (0, some (sigblkInitKSI ctx newIV now fin.1), fin.2)
      else (0, some ksi1, none)

/-- Iterated sigblkAddLeaf over a list of records, each given with its
metadata flag. -/
def addLeafList (hf : HashF) (hl : Nat → Nat) (ksi : KsiFile) :
    List (List Nat × Bool) → KsiFile
  | [] => ksi
  | (d, m) :: rest => addLeafList hf hl (sigblkAddLeaf hf hl ksi d m) rest

/-- add_queue_item from lib_ksils12.c: append a fresh item in WAITING
state to the back of the signer queue. -/
def add_queue_item {α : Type} (q : List (QueueItem α)) (t : QItemType) (arg : α)
    (intarg1 intarg2 : Nat) : List (QueueItem α) :=
  q ++ [⟨t, QItemStatus.waiting, arg, intarg1, intarg2, KSI_UNKNOWN_ERROR⟩]

/-- The response-drain phase of process_requests_async (lib_ksils12.c
lines 1404-1451): every item whose request has completed (`resp` yields
its KSI status, keyed by the request payload) is marked DONE; pushed
configurations touch only the context.  The arrival order of responses is
arbitrary, which the per-item map captures. -/
def drainResponses {α : Type} (resp : α → Option Nat) :
    List (QueueItem α) → List (QueueItem α)
  | [] => []
  | it :: rest =>
    (if it.status = QItemStatus.sent then
      match resp it.arg with
      | some st => { it with status := QItemStatus.done, ksi_status := st }
      | none => it
    else it) :: drainResponses resp rest

/-- The dispatch phase of process_requests_async (lib_ksils12.c lines
1456-1496): scan the queue from the front, submit every WAITING signature
request; a submission the service refuses (`accept` false) marks that
item DONE with the error status and stops the scan. -/
def dispatchWaiting {α : Type} (accept : α → Bool) (errStatus : Nat) :
    List (QueueItem α) → List (QueueItem α)
  | [] => []
  | it :: rest =>
    if it.type = QItemType.sigRequest ∧ it.status = QItemStatus.waiting then
      if accept it.arg then
        { it with status := QItemStatus.sent } :: dispatchWaiting accept errStatus rest
      else
        { it with status := QItemStatus.done, ksi_status := errStatus } :: rest
    else it :: dispatchWaiting accept errStatus rest

/-- The flush phase of process_requests_async (lib_ksils12.c lines
1499-1528): pop and write out front items while the front is a signature
request in DONE state, stopping at the first item that is not; returns
the remaining queue and the payloads written, in write order. -/
def flushHead {α : Type} : List (QueueItem α) → List (QueueItem α) × List α
  | [] => ([], [])
  | it :: rest =>
    if it.type = QItemType.sigRequest then
      if it.status = QItemStatus.done then
        let res := flushHead rest
        (res.1, it.arg :: res.2)
      else (it :: rest, [])
    else (it :: rest, [])

/-- process_requests_async from lib_ksils12.c: drain available responses,
dispatch waiting requests, then flush the finished front of the queue to
the signature file. -/
def process_requests_async {α : Type} (resp : α → Option Nat) (accept : α → Bool)
    (errStatus : Nat) (q : List (QueueItem α)) : List (QueueItem α) × List α :=
  flushHead (dispatchWaiting accept errStatus (drainResponses resp q))

/-- One observable event of the signer worker system: a producer enqueue
(add_queue_item), one invocation of process_requests_async with the
external service's behaviour for that tick, or the worker popping a
front item that is not a signature request (signer_thread lines
1651-1673). -/
inductive SignerEvent (α : Type) where
  | enqueue (t : QItemType) (arg : α) (intarg1 intarg2 : Nat)
  | tick (resp : α → Option Nat) (accept : α → Bool) (errStatus : Nat)
  | handleFront

/-- One step of the signer worker system on (queue, written signatures). -/
def signerStep {α : Type} (s : List (QueueItem α) × List α) (ev : SignerEvent α) :
    List (QueueItem α) × List α :=
  match ev with
  | SignerEvent.enqueue t a i1 i2 => (add_queue_item s.1 t a i1 i2, s.2)
  | SignerEvent.tick resp accept errStatus =>
    let res := process_requests_async resp accept errStatus s.1
    (res.1, s.2 ++ res.2)
  | SignerEvent.handleFront =>
    match s.1 with
    | [] => s
    | it :: rest => if it.type = QItemType.sigRequest then s else (rest, s.2)

/-- A run of the signer worker: fold the steps over an event list,
starting from the empty queue and an empty signature file. -/
def signerRun {α : Type} (evs : List (SignerEvent α)) : List (QueueItem α) × List α :=
  evs.foldl signerStep ([], [])

/-- The payloads a single event enqueues as signature requests. -/
def eventSigArgs {α : Type} : SignerEvent α → List α
  | SignerEvent.enqueue t a _ _ => if t = QItemType.sigRequest then [a] else []
  | _ => []

/-- The signature-request payloads enqueued by an event list, in enqueue
order. -/
def enqueuedSigArgs {α : Type} : List (SignerEvent α) → List α
  | [] => []
  | ev :: rest => eventSigArgs ev ++ enqueuedSigArgs rest

/-- The signature-request payloads currently in a queue, front first. -/
def sigArgs {α : Type} : List (QueueItem α) → List α
  | [] => []
  | it :: rest =>
    if it.type = QItemType.sigRequest then it.arg :: sigArgs rest else sigArgs rest

/-- Little-endian valuation of an occupancy bit list. -/
def bitsVal : List Bool → Nat
  | [] => 0
  | b :: bs => (if b then 1 else 0) + 2 * bitsVal bs

/-- Binary increment on a little-endian bit list. -/
def bitIncr : List Bool → List Bool
  | [] => [true]
  | false :: bs => true :: bs
  | true :: bs => false :: bitIncr bs

theorem bitsVal_bitIncr (bs : List Bool) : bitsVal (bitIncr bs) = bitsVal bs + 1 := by
  induction bs with
  | nil => rfl
  | cons b bs ih =>
    cases b
    · simp [bitIncr, bitsVal]
      omega
    · simp [bitIncr, bitsVal, ih]
      omega

theorem bitsVal_testBit (bs : List Bool) (j : Nat) :
    Nat.testBit (bitsVal bs) j = bs.getD j false := by
  induction bs generalizing j with
  | nil => simp [bitsVal]
  | cons b bs ih =>
    cases j with
    | zero =>
      rw [Nat.testBit_zero]
      cases b
      · simp [bitsVal, Nat.add_mul_mod_self_left]
      · simp [bitsVal, Nat.add_mul_mod_self_left]
    | succ j =>
      rw [Nat.testBit_succ]
      have hdiv : bitsVal (b :: bs) / 2 = bitsVal bs := by
        cases b
        · simp [bitsVal]
        · simp [bitsVal]
          omega
      rw [hdiv, ih, List.getD_cons_succ]

theorem getD_map_isSome {β : Type} (l : List (Option β)) (j : Nat) :
    (l.map Option.isSome).getD j false = (l.getD j none).isSome := by
  induction l generalizing j with
  | nil => simp
  | cons a l ih =>
    cases j with
    | zero => rfl
    | succ j => rw [List.map_cons, List.getD_cons_succ, List.getD_cons_succ, ih]

/-- The carry loop acts on slot occupancy exactly as a binary increment. -/
theorem sigblkCarry_occ (hf : HashF) (alg : Nat) (kt : Bool)
    (roots : List (Option (List Nat))) (t : List Nat) (j : Nat) (f : List Nat) :
    (sigblkCarry hf alg kt roots t j f).1.map Option.isSome
      = bitIncr (roots.map Option.isSome) := by
  induction roots generalizing t j f with
  | nil => rfl
  | cons r rest ih =>
    cases r with
    | none => rfl
    | some rj => simp [sigblkCarry, bitIncr, ih]

/-- Effect of one sigblkAddLeaf on occupancy, record count and the
disabled flag. -/
theorem sigblkAddLeaf_occ (hf : HashF) (hl : Nat → Nat) (ksi : KsiFile)
    (d : List Nat) (m : Bool) (h : ksi.disabled = false) :
    (sigblkAddLeaf hf hl ksi d m).roots.map Option.isSome
        = bitIncr (ksi.roots.map Option.isSome)
      ∧ (sigblkAddLeaf hf hl ksi d m).nRecords = ksi.nRecords + 1
      ∧ (sigblkAddLeaf hf hl ksi d m).disabled = false := by
  simp [sigblkAddLeaf, h, sigblkCarry_occ]

/-- The occupancy valuation counts the leaves added so far. -/
theorem addLeafList_occVal (hf : HashF) (hl : Nat → Nat)
    (L : List (List Nat × Bool)) (ksi : KsiFile) (h : ksi.disabled = false) :
    bitsVal ((addLeafList hf hl ksi L).roots.map Option.isSome)
        = bitsVal (ksi.roots.map Option.isSome) + L.length
      ∧ (addLeafList hf hl ksi L).nRecords = ksi.nRecords + L.length
      ∧ (addLeafList hf hl ksi L).disabled = false := by
  induction L generalizing ksi with
  | nil => simpa [addLeafList] using h
  | cons p rest ih =>
    obtain ⟨d, m⟩ := p
    have h1 := sigblkAddLeaf_occ hf hl ksi d m h
    have h2 := ih (sigblkAddLeaf hf hl ksi d m) h1.2.2
    refine ⟨?_, ?_, h2.2.2⟩
    · rw [addLeafList, h2.1, h1.1, bitsVal_bitIncr, List.length_cons]; omega
    · rw [addLeafList, h2.2.1, h1.2.1, List.length_cons]; omega

/-- Concrete digest function used by the witnesses: the digest records
the input length, padded to two bytes. -/
def hfC : HashF := fun l => [l.length % 256, 3]

/-- Concrete hash-length table used by the witnesses: every algorithm has
two digest bytes. -/
def hlC : Nat → Nat := fun _ => 2

/-- Concrete context used by the witnesses. -/
def ctxC : RsksiCtx := ⟨false, 1, 1, 256, true⟩

/-- Concrete freshly initialized file handle used by the witnesses:
algorithm 1, IV `[5, 6]`, zeroed last leaf, empty block, limit 1. -/
def ksiC : KsiFile := ⟨false, 1, some [5, 6], [1, 0, 0], [], 0, 1, 0, 0, true, false, true, []⟩

theorem sigArgs_append {α : Type} (a b : List (QueueItem α)) :
    sigArgs (a ++ b) = sigArgs a ++ sigArgs b := by
  induction a with
  | nil => rfl
  | cons it rest ih =>
    by_cases h : it.type = QItemType.sigRequest <;> simp [sigArgs, h, ih]

theorem sigArgs_drainResponses {α : Type} (resp : α → Option Nat)
    (q : List (QueueItem α)) : sigArgs (drainResponses resp q) = sigArgs q := by
  induction q with
  | nil => rfl
  | cons it rest ih =>
    by_cases hs : it.status = QItemStatus.sent <;>
      by_cases ht : it.type = QItemType.sigRequest <;>
        cases hr : resp it.arg <;>
          simp [drainResponses, sigArgs, hs, ht, hr, ih]

theorem sigArgs_dispatchWaiting {α : Type} (accept : α → Bool) (errStatus : Nat)
    (q : List (QueueItem α)) : sigArgs (dispatchWaiting accept errStatus q) = sigArgs q := by
  induction q with
  | nil => rfl
  | cons it rest ih =>
    by_cases hw : it.type = QItemType.sigRequest ∧ it.status = QItemStatus.waiting
    · by_cases ha : accept it.arg = true <;> simp [dispatchWaiting, sigArgs, hw, ha, ih, hw.1]
    · by_cases ht : it.type = QItemType.sigRequest
      · have hst : ¬it.status = QItemStatus.waiting := fun hs => hw ⟨ht, hs⟩
        simp [dispatchWaiting, sigArgs, hw, ht, hst, ih]
      · simp [dispatchWaiting, sigArgs, hw, ht, ih]

theorem sigArgs_flushHead {α : Type} (q : List (QueueItem α)) :
    (flushHead q).2 ++ sigArgs (flushHead q).1 = sigArgs q := by
  induction q with
  | nil => rfl
  | cons it rest ih =>
    by_cases ht : it.type = QItemType.sigRequest
    · by_cases hd : it.status = QItemStatus.done
      · simp [flushHead, sigArgs, ht, hd, ih]
      · simp [flushHead, sigArgs, ht, hd]
    · simp [flushHead, sigArgs, ht]

theorem signerStep_inv {α : Type} (s : List (QueueItem α) × List α) (ev : SignerEvent α) :
    (signerStep s ev).2 ++ sigArgs (signerStep s ev).1
      = s.2 ++ sigArgs s.1 ++ eventSigArgs ev := by
  cases ev with
  | enqueue t a i1 i2 =>
    by_cases ht : t = QItemType.sigRequest <;>
      simp [signerStep, add_queue_item, eventSigArgs, sigArgs_append, sigArgs, ht]
  | tick resp accept errStatus =>
    simp only [signerStep, process_requests_async, eventSigArgs, List.append_nil,
      List.append_assoc]
    rw [sigArgs_flushHead, sigArgs_dispatchWaiting, sigArgs_drainResponses]
  | handleFront =>
    cases hq : s.1 with
    | nil => simp [signerStep, eventSigArgs, hq]
    | cons it rest =>
      by_cases ht : it.type = QItemType.sigRequest <;>
        simp [signerStep, eventSigArgs, hq, sigArgs, ht]

theorem signerSteps_inv {α : Type} (evs : List (SignerEvent α))
    (s : List (QueueItem α) × List α) :
    (evs.foldl signerStep s).2 ++ sigArgs (evs.foldl signerStep s).1
      = s.2 ++ sigArgs s.1 ++ enqueuedSigArgs evs := by
  induction evs generalizing s with
  | nil => simp [enqueuedSigArgs]
  | cons ev rest ih =>
    rw [List.foldl_cons, ih, signerStep_inv, enqueuedSigArgs, List.append_assoc]

/-- Claim C2: over any run of the signer worker, whatever the arrival
order of aggregator responses and whatever submissions the service
refuses, the signature payloads written to the signature file followed by
the signature requests still queued equal the enqueue-order sequence, so
signatures are written exactly in block-finish order. -/
theorem C2_signature_order (evs : List (SignerEvent (List Nat))) :
    (signerRun evs).2 ++ sigArgs (signerRun evs).1 = enqueuedSigArgs evs := by
  have h := signerSteps_inv evs (([], []) : List (QueueItem (List Nat)) × List (List Nat))
  simpa [signerRun, sigArgs] using h

/-- Claim C3: with a well-formed last-leaf imprint and IV, the mask is
the hash of the full last-leaf imprint followed by the IV, and the tree
leaf produced by sigblkAddLeaf is the hash of mask-then-leafHash with
level byte 1 for a normal record, and of leafHash-then-mask with level
byte 1 for a metadata record. -/
theorem C3_mask_and_leaf (hf : HashF) (hl : Nat → Nat) (ksi : KsiFile)
    (iv d : List Nat) (hiv : ksi.iv = some iv) (hivlen : iv.length = hl ksi.hashAlg)
    (hll : ksi.lastLeaf.length = hl (ksi.lastLeaf.headD 0) + 1)
    (hdis : ksi.disabled = false) :
    sigblkCreateMask hf hl ksi = ksi.hashAlg :: hf (ksi.lastLeaf ++ iv)
      ∧ (sigblkAddLeaf hf hl ksi d false).lastLeaf
          = ksi.hashAlg :: hf (sigblkCreateMask hf hl ksi ++ sigblkCreateHash hf ksi d ++ [1])
      ∧ (sigblkAddLeaf hf hl ksi d true).lastLeaf
          = ksi.hashAlg :: hf (sigblkCreateHash hf ksi d ++ sigblkCreateMask hf hl ksi ++ [1]) := by
  have h1 : ksi.lastLeaf.take (hl (ksi.lastLeaf.headD 0) + 1) = ksi.lastLeaf := by
    rw [← hll, List.take_length]
  have h2 : (ksi.iv.getD []).take (hl ksi.hashAlg) = iv := by
    rw [hiv, Option.getD_some, ← hivlen, List.take_length]
  refine ⟨?_, ?_, ?_⟩
  · simp only [sigblkCreateMask, KSI_DataHasher_close, KSI_DataHasher_add,
      KSI_DataHasher_reset, List.nil_append, h1, h2]
  · simp [sigblkAddLeaf, hdis, sigblkHashTwoNodes, KSI_DataHasher_close, KSI_DataHasher_add,
      KSI_DataHasher_addImprint, KSI_DataHasher_reset]
  · simp [sigblkAddLeaf, hdis, sigblkHashTwoNodes, KSI_DataHasher_close, KSI_DataHasher_add,
      KSI_DataHasher_addImprint, KSI_DataHasher_reset]

/-- Witness for C3: the concrete handle satisfies the well-formedness
hypotheses and the three hash equations at record `[7]`. -/
theorem C3_mask_and_leaf_witness :
    ksiC.iv = some [5, 6] ∧ ([5, 6] : List Nat).length = hlC ksiC.hashAlg
      ∧ ksiC.lastLeaf.length = hlC (ksiC.lastLeaf.headD 0) + 1
      ∧ ksiC.disabled = false
      ∧ (sigblkCreateMask hfC hlC ksiC = ksiC.hashAlg :: hfC (ksiC.lastLeaf ++ [5, 6])
          ∧ (sigblkAddLeaf hfC hlC ksiC [7] false).lastLeaf
              = ksiC.hashAlg ::
                  hfC (sigblkCreateMask hfC hlC ksiC ++ sigblkCreateHash hfC ksiC [7] ++ [1])
          ∧ (sigblkAddLeaf hfC hlC ksiC [7] true).lastLeaf
              = ksiC.hashAlg ::
                  hfC (sigblkCreateHash hfC ksiC [7] ++ sigblkCreateMask hfC hlC ksiC ++ [1])) :=
  ⟨rfl, rfl, rfl, rfl, C3_mask_and_leaf hfC hlC ksiC [5, 6] [7] rfl rfl rfl rfl⟩

/-- The halving loop computes the floor base-2 logarithm: its result L
satisfies 2^L ≤ c < 2^(L+1) for positive c. -/
theorem calcLevelLoop_bounds (c : Nat) (h : 1 ≤ c) :
    2 ^ calcLevelLoop c ≤ c ∧ c < 2 ^ (calcLevelLoop c + 1) := by
  induction c using Nat.strong_induction_on with
  | _ c ih =>
    by_cases h2 : 1 < c
    · have hlt : c / 2 < c := Nat.div_lt_self (by omega) (by omega)
      have hrec := ih (c / 2) hlt (by omega)
      rw [calcLevelLoop, if_pos h2]
      have e1 : 2 ^ (calcLevelLoop (c / 2) + 1) = 2 * 2 ^ calcLevelLoop (c / 2) := by
        rw [pow_succ]; ring
      have e2 : 2 ^ (calcLevelLoop (c / 2) + 1 + 1) = 2 * 2 ^ (calcLevelLoop (c / 2) + 1) := by
        rw [pow_succ]; ring
      omega
    · rw [calcLevelLoop, if_neg h2]
      simp only [pow_zero, pow_one]
      omega

/-- Claim C4: sigblkCalcLevel of twice a positive record count is the
smallest level whose power of two reaches twice the count (the rounded-up
base-2 logarithm), and sigblkCalcLevel of zero is zero. -/
theorem C4_calc_level (N : Nat) (h : 1 ≤ N) :
    (2 * N ≤ 2 ^ sigblkCalcLevel (2 * N)
      ∧ ∀ m : Nat, 2 * N ≤ 2 ^ m → sigblkCalcLevel (2 * N) ≤ m)
    ∧ sigblkCalcLevel 0 = 0 := by
  have hb := calcLevelLoop_bounds (2 * N) (by omega)
  refine ⟨⟨?_, ?_⟩, ?_⟩
  · simp only [sigblkCalcLevel]
    by_cases hc : 2 ^ calcLevelLoop (2 * N) < 2 * N
    · rw [if_pos hc]; omega
    · rw [if_neg hc]; omega
  · intro m hm
    simp only [sigblkCalcLevel]
    by_cases hc : 2 ^ calcLevelLoop (2 * N) < 2 * N
    · rw [if_pos hc]
      by_contra hcon
      have hmle : m ≤ calcLevelLoop (2 * N) := by omega
      have : 2 ^ m ≤ 2 ^ calcLevelLoop (2 * N) := Nat.pow_le_pow_right (by omega) hmle
      omega
    · rw [if_neg hc]
      by_contra hcon
      have hmlt : m + 1 ≤ calcLevelLoop (2 * N) := by omega
      have hle : 2 ^ (m + 1) ≤ 2 ^ calcLevelLoop (2 * N) := Nat.pow_le_pow_right (by omega) hmlt
      have epow : 2 ^ (m + 1) = 2 * 2 ^ m := by rw [pow_succ]; ring
      have hpos : 1 ≤ 2 ^ m := Nat.one_le_two_pow
      omega
  · rw [sigblkCalcLevel, calcLevelLoop]
    simp

/-- Witness for C4 at N = 3: level 3 is the least with 2^level at or
above 6, and the zero case. -/
theorem C4_calc_level_witness :
    1 ≤ 3
      ∧ ((2 * 3 ≤ 2 ^ sigblkCalcLevel (2 * 3)
          ∧ ∀ m : Nat, 2 * 3 ≤ 2 ^ m → sigblkCalcLevel (2 * 3) ≤ m)
        ∧ sigblkCalcLevel 0 = 0) :=
  ⟨by omega, C4_calc_level 3 (by omega)⟩

/-- Claim C5 (code bug): tlvWriteHeader passes the flags argument, not
the value length, to tlvGetHeaderSize, so with flags 0 a 5-bit tag is
always given the 2-byte header: at tag 0x02 and length 300 the code
emits the 2-byte header with the length truncated to 44, although
tlvGetHeaderSize applied to the actual length selects the 4-byte form
the claim requires. -/
theorem C5_header_size_bug :
    tlvWriteHeader [] 0 0x02 300 = (0, [0x02, 44]) ∧ tlvGetHeaderSize 0x02 300 = 4 := by
  decide

/-- Claim C6 (code bug): the value zero has a zero-octet payload, and
tlvWriteInt64TLV at zero emits exactly the header with length 0 — but it
returns RSGTE_IO rather than 0, because the zero-size fwrite reports
zero elements written. -/
theorem C6_int_zero_bug :
    tlvGetIntSize 0 = 0
      ∧ tlvWriteInt64TLV [] 0 0x01 0 = ( RSGTE_IO, [0x01, 0x00]) := by
  have h0 : tlvGetIntSize 0 = 0 := by rw [tlvGetIntSize]; simp
  refine ⟨h0, ?_⟩
  simp [tlvWriteInt64TLV, h0, tlvWriteHeader, tlvGetHeaderSize, RSGT_TYPE_MASK,
    tlvWriteHeader8, tlvWriteOctetString, fwrite1, bigEndianBytes, RSGTE_IO]

/-- Counterexample to claim C7: with configured limit 10, a push of
maxLevel 5 followed by a push of maxLevel 8 moves the effective block
level limit from 5 up to 8, so the limit does not only decrease. -/
theorem C7_counterexample :
    (handle_ksi_config ⟨false, 10, 10, 256, true⟩ ⟨none, some 5⟩).effectiveBlockLevelLimit = 5
      ∧ (handle_ksi_config (handle_ksi_config ⟨false, 10, 10, 256, true⟩ ⟨none, some 5⟩)
          ⟨none, some 8⟩).effectiveBlockLevelLimit = 8 := by
  decide

/-- Claim C7 amended: a config push carrying maxLevel v always sets the
effective block level limit to min(v, configured limit) — never above
the configured limit, though possibly above its previous value — and
disables the context exactly when v is below 2 and min(v, configured
limit) already equals the current effective limit. -/
theorem C7_amended_level_push (ctx : RsksiCtx) (mr : Option Nat) (v : Nat) :
    (handle_ksi_config ctx ⟨mr, some v⟩).effectiveBlockLevelLimit
        = min v ctx.blockLevelLimit
      ∧ (handle_ksi_config ctx ⟨mr, some v⟩).disabled
          = (ctx.disabled
              || (decide (v < 2)
                  && decide (min v ctx.blockLevelLimit = ctx.effectiveBlockLevelLimit))) := by
  cases mr <;>
    · by_cases h1 : ctx.effectiveBlockLevelLimit = min v ctx.blockLevelLimit
      · by_cases h2 : v < 2 <;> simp [handle_ksi_config, h1, h2]
      · simp [handle_ksi_config, h1, Ne.symm h1]

/-- Counterexample to claim C8: on the concrete empty block,
sigblkFinishKSI clears the in-block flag and frees the IV, so the block
state is not left unchanged. -/
theorem C8_counterexample :
    ksiC.nRecords = 0 ∧ ksiC.bInBlk = true
      ∧ (sigblkFinishKSI hfC ctxC none [] ksiC).1.bInBlk = false
      ∧ (sigblkFinishKSI hfC ctxC none [] ksiC).1.iv = none := by
  decide

/-- Claim C8 amended: sigblkFinishKSI on an empty block writes no TLV
bytes, enqueues nothing, and leaves roots, record count, last leaf and
the block file untouched, but it does free the IV and clear the in-block
flag. -/
theorem C8_empty_finish (hf : HashF) (ctx : RsksiCtx) (aggrDer : Option (List Nat))
    (errText : List Nat) (ksi : KsiFile) (h : ksi.nRecords = 0) :
    sigblkFinishKSI hf ctx aggrDer errText ksi
      = ({ ksi with iv := none, bInBlk := false }, none) := by
  simp [sigblkFinishKSI, h]

/-- Witness for the amended C8 at the concrete empty block. -/
theorem C8_empty_finish_witness :
    ksiC.nRecords = 0
      ∧ sigblkFinishKSI hfC ctxC none [] ksiC
          = ({ ksiC with iv := none, bInBlk := false }, none) :=
  ⟨rfl, C8_empty_finish hfC ctxC none [] ksiC rfl⟩

/-- Claim C9: block init recomputes the block size limit as 2^(L_eff − 1)
from the context's current effective block level limit, and a
sigblkAddRecordKSI call whose leaf brings the record count up to the
block size limit finishes the block and initializes the next one within
that same call. -/
theorem C9_block_size_limit (hf : HashF) (hl : Nat → Nat) (ctx : RsksiCtx)
    (aggrDer : Option (List Nat)) (errText : List Nat) (newIV : List Nat) (now : Nat)
    (ksi : KsiFile) (rec : List Nat) (heff : 1 ≤ ctx.effectiveBlockLevelLimit)
    (hdis : ksi.disabled = false) :
    (sigblkInitKSI ctx newIV now ksi).blockSizeLimit = 2 ^ (ctx.effectiveBlockLevelLimit - 1)
      ∧ ((sigblkAddLeaf hf hl ksi rec false).nRecords
            = (sigblkAddLeaf hf hl ksi rec false).blockSizeLimit →
          sigblkAddRecordKSI hf hl ctx aggrDer errText newIV now (some ksi) rec
            = (0, some (sigblkInitKSI ctx newIV now
                  (sigblkFinishKSI hf ctx aggrDer errText (sigblkAddLeaf hf hl ksi rec false)).1),
                (sigblkFinishKSI hf ctx aggrDer errText (sigblkAddLeaf hf hl ksi rec false)).2)) := by
  refine ⟨rfl, fun hreach => ?_⟩
  simp [sigblkAddRecordKSI, hdis, hreach]

/-- Witness for C9: the concrete context has effective limit 1, the
concrete handle has block size limit 1, a first record reaches it, and
the call rolls the block over. -/
theorem C9_block_size_limit_witness :
    1 ≤ ctxC.effectiveBlockLevelLimit
      ∧ ksiC.disabled = false
      ∧ (sigblkAddLeaf hfC hlC ksiC [7] false).nRecords
          = (sigblkAddLeaf hfC hlC ksiC [7] false).blockSizeLimit
      ∧ ((sigblkInitKSI ctxC [5, 6] 0 ksiC).blockSizeLimit
            = 2 ^ (ctxC.effectiveBlockLevelLimit - 1)
        ∧ ((sigblkAddLeaf hfC hlC ksiC [7] false).nRecords
              = (sigblkAddLeaf hfC hlC ksiC [7] false).blockSizeLimit →
            sigblkAddRecordKSI hfC hlC ctxC none [] [5, 6] 0 (some ksiC) [7]
              = (0, some (sigblkInitKSI ctxC [5, 6] 0
                    (sigblkFinishKSI hfC ctxC none [] (sigblkAddLeaf hfC hlC ksiC [7] false)).1),
                  (sigblkFinishKSI hfC ctxC none [] (sigblkAddLeaf hfC hlC ksiC [7] false)).2))) :=
  ⟨by decide, rfl, by decide,
    C9_block_size_limit hfC hlC ctxC none [] [5, 6] 0 ksiC [7] (by decide) rfl⟩

/-- Claim C10: sigblkAddRecordKSI returns success and changes nothing on
a null handle and on a disabled handle. -/
theorem C10_disabled_noop (hf : HashF) (hl : Nat → Nat) (ctx : RsksiCtx)
    (aggrDer : Option (List Nat)) (errText : List Nat) (newIV : List Nat) (now : Nat)
    (rec : List Nat) (ksi : KsiFile) (h : ksi.disabled = true) :
    sigblkAddRecordKSI hf hl ctx aggrDer errText newIV now none rec = (0, none, none)
      ∧ sigblkAddRecordKSI hf hl ctx aggrDer errText newIV now (some ksi) rec
          = (0, some ksi, none) := by
  simp [sigblkAddRecordKSI, h]

/-- Concrete disabled handle for the C10 witness. -/
def ksiDisabledC : KsiFile := { ksiC with disabled := true }

/-- Witness for C10 on the concrete disabled handle. -/
theorem C10_disabled_noop_witness :
    ksiDisabledC.disabled = true
      ∧ (sigblkAddRecordKSI hfC hlC ctxC none [] [5, 6] 0 none [7] = (0, none, none)
        ∧ sigblkAddRecordKSI hfC hlC ctxC none [] [5, 6] 0 (some ksiDisabledC) [7]
            = (0, some ksiDisabledC, none)) :=
  ⟨rfl, C10_disabled_noop hfC hlC ctxC none [] [5, 6] 0 [7] ksiDisabledC rfl⟩

/-- Claim C1: starting from a freshly initialized block on a non-disabled
handle, after the k-th call of sigblkAddLeaf the occupied slots of the
roots array are exactly the 1-bits of k: slot j holds a root iff bit j of
k is set. -/
theorem C1_carry_invariant (hf : HashF) (hl : Nat → Nat) (ctx : RsksiCtx)
    (newIV : List Nat) (now : Nat) (ksi0 : KsiFile)
    (L : List (List Nat × Bool)) (j : Nat) (h : ksi0.disabled = false) :
    ((addLeafList hf hl (sigblkInitKSI ctx newIV now ksi0) L).roots.getD j none).isSome
      = Nat.testBit L.length j := by
  have hinit : (sigblkInitKSI ctx newIV now ksi0).disabled = false := by
    simpa [sigblkInitKSI] using h
  have hinv := addLeafList_occVal hf hl L (sigblkInitKSI ctx newIV now ksi0) hinit
  have hval : bitsVal ((addLeafList hf hl (sigblkInitKSI ctx newIV now ksi0) L).roots.map
      Option.isSome) = L.length := by
    rw [hinv.1]
    simp [sigblkInitKSI, bitsVal]
  rw [← getD_map_isSome, ← bitsVal_testBit, hval]

/-- Witness for C1: three concrete leaves on the concrete handle; after
leaf 3 slot 0 is occupied, matching bit 0 of 3. -/
theorem C1_carry_invariant_witness :
    ksiC.disabled = false ∧
      ((addLeafList hfC hlC (sigblkInitKSI ctxC [5, 6] 0 ksiC)
          [([1], false), ([2], true), ([3], false)]).roots.getD 0 none).isSome
        = Nat.testBit 3 0 :=
  ⟨rfl, C1_carry_invariant hfC hlC ctxC [5, 6] 0 ksiC
    [([1], false), ([2], true), ([3], false)] 0 rfl⟩

